import Mathlib

/-!
Verification development for the ingestion engine of the
timescale-prometheus adapter (file src/pkg/pgmodel/migrate.go).

The Go source is embedded shallowly:

  - pure helpers become Lean functions with the same names;
  - the per-metric writer goroutine (runInserterRoutine) becomes a
    deterministic function over an explicit schedule of mailbox polls,
    where a poll is either a received request or a moment at which the
    mailbox is observed empty, and the end of the poll list is the
    closing of the mailbox;
  - the SQL store is an oracle: the series-id stored routine is a
    stream of responses consumed one per pipelined call, and the result
    of a flush (series resolution plus bulk copy) is injected as an
    error oracle indexed by flush count;
  - float64 sample values are never inspected by the engine, so they
    are carried as an opaque type parameter Val.

Machine integers: Go int and int64 values that the claims touch are
list lengths and sentinel comparisons, far from any overflow, and are
modelled as Nat / Int.
-/

namespace PgModel

/-- Store-assigned series identifier, Go type SeriesID = int64.  The
sentinel for the unresolved state is any negative value; the source
tests seriesID > -1 for resolved and seriesID < 0 for missing. -/
abbrev SeriesID := Int

/-- Errors flowing through error sinks.  Base errors carry an opaque
code; insertRoutineFailed models the fmt.Errorf wrapping performed by
runInserterRoutineFailure, which wraps the original error with %w. -/
inductive Err
  | base (code : Nat)
  | insertRoutineFailed (e : Err)
deriving DecidableEq, Repr

/-- Modelled from the spec (section 3 Labels): the Labels type of the
repository is defined outside src/.  It is the canonical sorted label
set; the fields metricName, names and values are the ones the source
reads in setSeriesIds (curr.labels.metricName, .names, .values).  Two
label sets are equal iff their canonical fields are equal. -/
structure Labels where
  metricName : String
  names : List String
  values : List String
deriving DecidableEq, Repr, Inhabited

/-- Modelled from the spec (section 4.1): the fingerprint returned by
Labels.String is implementation-defined but injective over canonical
label sets, and it is used only as a cache key.  We model the key by
an injective encoding of the canonical fields into a type carrying a
linear order, which also serves as the label comparison key used by
Labels.Compare in the sort of setSeriesIds. -/
def Labels.key (l : Labels) : List (List String) :=
  [[l.metricName], l.names, l.values]

theorem Labels.key_injective {a b : Labels} (h : a.key = b.key) : a = b := by
  cases a; cases b
  simp [Labels.key] at h
  simp [h.1, h.2.1, h.2.2]

/-- Modelled from the spec: Labels.Equal holds iff the canonical label
sets coincide. -/
def Labels.Equal (a b : Labels) : Bool := decide (a = b)

/-- Modelled from the spec: Labels.Compare is a total order by the
canonical key; setSeriesIds only uses Compare ... < 0 as the sort
predicate, which we expose as the boolean labelsLe below. -/
def Labels.Compare (a b : Labels) : Int :=
  if a.key < b.key then -1 else if b.key < a.key then 1 else 0

/-- Sample, Go prompb.Sample: timestamp in milliseconds since epoch
(int64) and an opaque float64 value. -/
structure Sample (Val : Type) where
  Timestamp : Int
  Value : Val
deriving DecidableEq, Repr, Inhabited

/-- Go samplesInfo (spec section 3 SampleBatch): labels (a possibly
nil pointer), the series id with negative sentinel for unresolved, and
the list of samples. -/
structure samplesInfo (Val : Type) where
  labels : Option Labels
  seriesID : Int
  samples : List (Sample Val)
deriving DecidableEq, Repr, Inhabited

/-- In-writer series cache, Go map[string]SeriesID keyed by the
injective fingerprint Labels.String; modelled as an association list
keyed by the canonical label set itself (see Labels.key). -/
abbrev SeriesCache := List (Labels × SeriesID)

def cacheLookup : SeriesCache → Labels → Option SeriesID
  | [], _ => none
  | (k, v) :: rest, l => if k = l then some v else cacheLookup rest l

def cacheInsert (c : SeriesCache) (l : Labels) (id : SeriesID) : SeriesCache :=
  (l, id) :: c

/-- Conversion model.Time(sample.Timestamp).Time() used by
SampleInfoIterator.Values: milliseconds become the pair of unix
seconds and nanoseconds, with Go truncated division semantics. -/
def modelTimeTime (ms : Int) : Int × Int :=
  (Int.tdiv ms 1000, Int.tmod ms 1000 * 1000000)

/-- Row produced by the bulk-copy row source: converted time, value,
series id, in the column order time, value, series_id. -/
structure CopyRow (Val : Type) where
  time : Int × Int
  value : Val
  seriesId : SeriesID
deriving DecidableEq, Repr

/-- Go SampleInfoIterator: iterator over a collection of samplesInfos
returning data table rows.  sampleIndex is an int starting at -1. -/
structure SampleInfoIterator (Val : Type) where
  sampleInfos : List (samplesInfo Val)
  sampleInfoIndex : Nat
  sampleIndex : Int
deriving DecidableEq, Repr

/-- Go NewSampleInfoIterator: empty collection, sampleIndex -1,
sampleInfoIndex 0. -/
def NewSampleInfoIterator (Val : Type) : SampleInfoIterator Val :=
  { sampleInfos := [], sampleInfoIndex := 0, sampleIndex := -1 }

/-- Go SampleInfoIterator.Append. -/
def SampleInfoIterator.Append {Val : Type} (t : SampleInfoIterator Val)
    (s : samplesInfo Val) : SampleInfoIterator Val :=
  { t with sampleInfos := t.sampleInfos ++ [s] }

/-- Go SampleInfoIterator.Next: increments sampleIndex; if the current
batch is exhausted it advances to the next batch exactly once; returns
whether sampleInfoIndex is still in range.  Note the single advance
per call: a later batch being empty is not skipped. -/
def SampleInfoIterator.Next {Val : Type} [Inhabited Val]
    (t : SampleInfoIterator Val) : SampleInfoIterator Val × Bool :=
  let s := t.sampleIndex + 1
  let t2 :=
    if t.sampleInfoIndex < t.sampleInfos.length ∧
        ((t.sampleInfos.getD t.sampleInfoIndex default).samples.length : Int) ≤ s then
      { t with sampleInfoIndex := t.sampleInfoIndex + 1, sampleIndex := 0 }
    else
      { t with sampleIndex := s }
  (t2, decide (t2.sampleInfoIndex < t2.sampleInfos.length))

/-- Go SampleInfoIterator.Values: reads the current row.  The source
indexes the slices unguarded; an out-of-range access (a Go panic) is
modelled as none. -/
def SampleInfoIterator.Values {Val : Type} (t : SampleInfoIterator Val) :
    Option (CopyRow Val) := do
  let info ← t.sampleInfos[t.sampleInfoIndex]?
  if t.sampleIndex < 0 then none else
  let sample ← info.samples[t.sampleIndex.toNat]?
  some { time := modelTimeTime sample.Timestamp, value := sample.Value,
         seriesId := info.seriesID }

/-- Total number of samples across a list of batches; the pending row
count in the sense of the spec (sum of len(samples)). -/
def sampleRowCount {Val : Type} (infos : List (samplesInfo Val)) : Nat :=
  (infos.map (fun si => si.samples.length)).sum

/-- Go flushSize constant. -/
def flushSize : Nat := 2000

/-- Go flushTimeout constant, in milliseconds.  Declared in the source
(line 550) and never referenced by any other source line. -/
def flushTimeoutMs : Nat := 500

/-- Go insertDataTask: the completion handle (a WaitGroup pointer,
none models nil) and the error sink (none models a nil channel). -/
structure insertDataTask where
  finished : Option Nat
  errChan : Option Nat
deriving DecidableEq, Repr

/-- Go insertDataRequest: metric name, batches, completion latch and
error sink of the originating ingest call. -/
structure insertDataRequest (Val : Type) where
  metric : String
  data : List (samplesInfo Val)
  finished : Option Nat
  errChan : Option Nat
deriving DecidableEq, Repr

/-- The zero value of insertDataRequest, which a nonblocking receive
on a closed Go channel yields: empty metric, nil data, nil WaitGroup,
nil channel. -/
def zeroRequest (Val : Type) : insertDataRequest Val :=
  { metric := "", data := [], finished := none, errChan := none }

/-- Go pendingBuffer: tasks awaiting completion plus the accumulated
batch iterator. -/
structure pendingBuffer (Val : Type) where
  needsResponse : List insertDataTask
  batch : SampleInfoIterator Val
deriving DecidableEq, Repr

/-- Fresh pending buffer as built in runInserterRoutine line 628. -/
def emptyPendingBuffer (Val : Type) : pendingBuffer Val :=
  { needsResponse := [], batch := NewSampleInfoIterator Val }

/-- Go pendingBuffer.addReq: appends one task for the request, appends
the request batches, and reports whether the number of buffered
batches (len of sampleInfos, not the sample total) strictly exceeds
flushSize. -/
def pendingBuffer.addReq {Val : Type} (p : pendingBuffer Val)
    (req : insertDataRequest Val) : pendingBuffer Val × Bool :=
  let p2 : pendingBuffer Val :=
    { needsResponse := p.needsResponse ++ [⟨req.finished, req.errChan⟩],
      batch := { p.batch with sampleInfos := p.batch.sampleInfos ++ req.data } }
  (p2, decide (flushSize < p2.batch.sampleInfos.length))

/-- Go insertHandler.hasPendingReqs: tests the buffered batch count,
not the task count. -/
def pendingBuffer.hasPendingReqs {Val : Type} (p : pendingBuffer Val) : Bool :=
  decide (0 < p.batch.sampleInfos.length)

/-- Go insertHandler.fillKnowSeriesIds: for each batch that is still
unresolved, look up the label fingerprint in the series cache; on hit
store the id back into the slice element; count the misses.  The
source line series.labels = nil assigns to the range-loop copy of the
element, not to the slice element, so the stored labels reference is
left in place; the model reproduces that.  A nil labels pointer with
an unresolved id would panic in Go at labels.String(); the model
counts it as a miss. -/
def fillKnowSeriesIds {Val : Type} (cache : SeriesCache) :
    List (samplesInfo Val) → List (samplesInfo Val) × Nat
  | [] => ([], 0)
  | si :: rest =>
    let r := fillKnowSeriesIds cache rest
    if -1 < si.seriesID then (si :: r.1, r.2)
    else
      match si.labels with
      | some l =>
        match cacheLookup cache l with
        | some id => ({ si with seriesID := id } :: r.1, r.2)
        | none => (si :: r.1, r.2 + 1)
      | none => (si :: r.1, r.2 + 1)

/-- Boolean sort predicate used by the sort.Slice call of setSeriesIds
(labels Compare less than zero, completed to a total preorder, as any
Go sort requires). -/
def labelsLe (a b : Nat × Labels) : Bool := decide (a.2.key ≤ b.2.key)

/-- Unresolved entries of a filled batch list, each with its index in
the list; these are the pointers collected into seriesToInsert at
lines 753-758.  A nil labels pointer is replaced by the default label
set (the Go code would panic on it inside the sort comparator). -/
def missingSeries {Val : Type} (infos : List (samplesInfo Val)) : List (Nat × Labels) :=
  (infos.enum.filter (fun p => decide (p.2.seriesID < 0))).map
    (fun p => (p.1, p.2.labels.getD default))

/-- Grouping of the sorted seriesToInsert slice into clusters of
consecutive entries with equal labels, as the lastSeenLabel loop at
lines 770-784 does: a new cluster starts exactly when the current
labels differ from the previous entry. -/
def groupConsecutive : List (Nat × Labels) → List (List (Nat × Labels))
  | [] => []
  | [x] => [[x]]
  | x :: y :: rest =>
    let gs := groupConsecutive (y :: rest)
    if x.2 = y.2 then (x :: gs.headD []) :: gs.tail else [x] :: gs

/-- Labels of the first entry of a cluster (batchSeries[i][0].labels). -/
def headLabels (c : List (Nat × Labels)) : Labels := (c.headD (0, default)).2

/-- Per-cluster id assignment of the result loop at lines 797-817: the
cluster with index k receives the k-th stored-routine response, and
every member (a pointer into the original slice, here an index) is
assigned that id. -/
def assignClusters (resp : Nat → SeriesID) :
    Nat → List (List (Nat × Labels)) → List (Nat × SeriesID)
  | _, [] => []
  | k, c :: cs => c.map (fun il => (il.1, resp k)) ++ assignClusters resp (k + 1) cs

/-- Series cache updates of the result loop: for each cluster, the
fingerprint of its first member is mapped to the received id. -/
def updateCacheClusters (resp : Nat → SeriesID) :
    Nat → SeriesCache → List (List (Nat × Labels)) → SeriesCache
  | _, cache, [] => cache
  | k, cache, c :: cs =>
    updateCacheClusters resp (k + 1) (cacheInsert cache (headLabels c) (resp k)) cs

/-- Application of the pointer writes lsi.seriesID = id to the batch
list: the element at index i receives the id assigned to i, if any. -/
def applyAssignments {Val : Type} (assignments : List (Nat × SeriesID)) :
    Nat → List (samplesInfo Val) → List (samplesInfo Val)
  | _, [] => []
  | i, si :: rest =>
    (match assignments.lookup i with
     | some id => { si with seriesID := id }
     | none => si) :: applyAssignments assignments (i + 1) rest

/-- Go insertHandler.setSeriesIds: fill ids from the cache; if nothing
is missing return with zero stored-routine calls; otherwise sort the
missing entries by label comparison, group consecutive equal labels
into clusters, perform one stored-routine call per cluster (the k-th
call returning resp k), update the series cache from each cluster
head, and write the id of its cluster back through every pointer.
Returns the updated batch list, the updated cache, and
numSQLFunctionCalls. -/
def setSeriesIds {Val : Type} (resp : Nat → SeriesID) (cache : SeriesCache)
    (infos : List (samplesInfo Val)) :
    List (samplesInfo Val) × SeriesCache × Nat :=
  let filled := fillKnowSeriesIds cache infos
  if filled.2 = 0 then (filled.1, cache, 0)
  else
    let clusters := groupConsecutive ((missingSeries filled.1).mergeSort labelsLe)
    (applyAssignments (assignClusters resp 0 clusters) 0 filled.1,
     updateCacheClusters resp 0 cache clusters,
     clusters.length)

/-- Observable actions of a writer: an attempted nonblocking send on
an error sink (delivered or dropped according to sink occupancy, which
the writer cannot observe), a latch decrement (finished.Done, none
marking the nil WaitGroup of a zero-value request, a Go panic), and a
flush attempt recording the copied batches and the injected flush
outcome. -/
inductive WEvent (Val : Type)
  | errTrySend (sink : Option Nat) (e : Err)
  | done (latch : Option Nat)
  | flush (rows : List (samplesInfo Val)) (err : Option Err)
deriving DecidableEq, Repr

/-- Latches decremented in an event list, in order. -/
def doneLatches {Val : Type} : List (WEvent Val) → List (Option Nat)
  | [] => []
  | WEvent.done l :: rest => l :: doneLatches rest
  | _ :: rest => doneLatches rest

/-- Error try-send events in an event list, in order. -/
def errSends {Val : Type} : List (WEvent Val) → List (Option Nat × Err)
  | [] => []
  | WEvent.errTrySend s e :: rest => (s, e) :: errSends rest
  | _ :: rest => errSends rest

/-- Flush events in an event list, in order. -/
def flushEvents {Val : Type} : List (WEvent Val) → List (List (samplesInfo Val) × Option Err)
  | [] => []
  | WEvent.flush r e :: rest => (r, e) :: flushEvents rest
  | _ :: rest => flushEvents rest

/-- Go insertHandler.flushPending, lines 711-744, with the flush body
result (series resolution plus CopyFrom) injected as err: record the
flush attempt, then for every attached task try-send the error (only
when there is one) and decrement its latch, in attachment order, and
finally clear the buffer, resetting the iterator to length zero with
sampleIndex -1.  The completion-delivery loop over the attached tasks
is taskEvents: for each task, try-send the error when there is one,
then decrement the latch. -/
def taskEvents {Val : Type} (err : Option Err) :
    List insertDataTask → List (WEvent Val)
  | [] => []
  | t :: rest =>
    (match err with
     | some e => [WEvent.errTrySend t.errChan e]
     | none => []) ++ (WEvent.done t.finished :: taskEvents err rest)

def flushPending {Val : Type} (err : Option Err) (p : pendingBuffer Val) :
    List (WEvent Val) × pendingBuffer Val :=
  (WEvent.flush p.batch.sampleInfos err :: taskEvents err p.needsResponse,
   emptyPendingBuffer Val)

/-- One poll of the writer mailbox: either a request is received, or
the mailbox is momentarily observed empty.  The end of the poll list
is the closing of the mailbox; scheduling nondeterminism is captured
by quantifying over poll lists. -/
inductive Poll (Val : Type)
  | recv (r : insertDataRequest Val)
  | empty
deriving DecidableEq, Repr

/-- Requests delivered by a poll schedule, in order. -/
def recvs {Val : Type} : List (Poll Val) → List (insertDataRequest Val)
  | [] => []
  | Poll.recv r :: rest => r :: recvs rest
  | Poll.empty :: rest => recvs rest

/-- Writer-loop outcome.  exited: the loop returned.  hung: the
mailbox closed while the buffer held between one and flushSize - 1
batches, so the nonblocking receive (which lacks the ok check and
therefore reads zero-value requests from the closed channel forever)
spins without ever flushing or returning.  panicked: the mailbox
closed with at least flushSize buffered batches, so the loop flushes a
buffer containing a zero-value task and calls Done on a nil WaitGroup. -/
inductive Outcome
  | exited
  | hung
  | panicked
deriving DecidableEq, Repr

/-- Result of a writer run: emitted events, final outcome and the
pending buffer at the end (at the cut point for hung runs). -/
structure RunResult (Val : Type) where
  events : List (WEvent Val)
  outcome : Outcome
  finalPending : pendingBuffer Val
deriving Repr

/-- Writer context: the series cache consulted by fillKnowSeriesIds on
arrival (series resolution inside the flush body is modelled
separately by setSeriesIds), and the flush outcome oracle, indexed by
the number of flushes performed so far. -/
structure WriterCtx where
  seriesCache : SeriesCache
  flushErrs : Nat → Option Err

/-- Writer loop state: the pending buffer and the flush counter that
indexes the flush oracle. -/
structure WriterState (Val : Type) where
  pending : pendingBuffer Val
  flushCount : Nat

/-- Go insertHandler.handleReq: fill known series ids on the arriving
request data, attach the request to the pending buffer, and if addReq
reports more than flushSize buffered batches, flush immediately. -/
def handleReq {Val : Type} (ctx : WriterCtx) (st : WriterState Val)
    (req : insertDataRequest Val) : WriterState Val × List (WEvent Val) :=
  let data2 := (fillKnowSeriesIds ctx.seriesCache req.data).1
  let ar := st.pending.addReq { req with data := data2 }
  if ar.2 then
    let fl := flushPending (ctx.flushErrs st.flushCount) ar.1
    ({ pending := fl.2, flushCount := st.flushCount + 1 }, fl.1)
  else
    ({ st with pending := ar.1 }, [])

/-- Main loop of runInserterRoutine, lines 633-651, driven by a poll
schedule.  With an empty buffer the writer blocks on the mailbox
(waiting through empty moments, exiting when it is closed).  With a
nonempty buffer it is in hot receive: a received request is handled
and a flush follows as soon as the buffered batch count reaches
flushSize; a failed nonblocking receive ends hot receive and flushes.
At the closed end of the schedule a nonempty buffer makes the
nonblocking receive read zero-value requests forever (no ok check):
below flushSize batches the loop hangs, at or above it the flush
decrements a nil latch, a panic. -/
def runLoop {Val : Type} (ctx : WriterCtx) :
    List (Poll Val) → WriterState Val → RunResult Val
  | [], st =>
    if st.pending.hasPendingReqs then
      if flushSize ≤ st.pending.batch.sampleInfos.length then
        { events := [], outcome := Outcome.panicked, finalPending := st.pending }
      else
        { events := [], outcome := Outcome.hung, finalPending := st.pending }
    else
      { events := [], outcome := Outcome.exited, finalPending := st.pending }
  | p :: rest, st =>
    if st.pending.hasPendingReqs then
      match p with
      | Poll.recv r =>
        let h := handleReq ctx st r
        if flushSize ≤ h.1.pending.batch.sampleInfos.length then
          let fl := flushPending (ctx.flushErrs h.1.flushCount) h.1.pending
          let res := runLoop ctx rest
            { pending := fl.2, flushCount := h.1.flushCount + 1 }
          { events := h.2 ++ fl.1 ++ res.events, outcome := res.outcome,
            finalPending := res.finalPending }
        else
          let res := runLoop ctx rest h.1
          { events := h.2 ++ res.events, outcome := res.outcome,
            finalPending := res.finalPending }
      | Poll.empty =>
        let fl := flushPending (ctx.flushErrs st.flushCount) st.pending
        let res := runLoop ctx rest
          { pending := fl.2, flushCount := st.flushCount + 1 }
        { events := fl.1 ++ res.events, outcome := res.outcome,
          finalPending := res.finalPending }
    else
      match p with
      | Poll.recv r =>
        let h := handleReq ctx st r
        let res := runLoop ctx rest h.1
        { events := h.2 ++ res.events, outcome := res.outcome,
          finalPending := res.finalPending }
      | Poll.empty => runLoop ctx rest st

/-- Go runInserterRoutineFailure: drain the mailbox until it closes,
try-sending the wrapped table-resolution error to the error sink of
each dequeued request and decrementing its latch. -/
def runInserterRoutineFailure {Val : Type} (e : Err) :
    List (Poll Val) → List (WEvent Val)
  | [] => []
  | Poll.recv r :: rest =>
    WEvent.errTrySend r.errChan (Err.insertRoutineFailed e) ::
      WEvent.done r.finished :: runInserterRoutineFailure e rest
  | Poll.empty :: rest => runInserterRoutineFailure e rest

/-- Go runInserterRoutine, table resolution included: tableRes is the
combined result of the metric-table lookup or creation (lines
589-623).  On failure the raw error is try-sent to the error sink of
the request that created the writer, and the mailbox is drained in the
poisoned state until closed.  On success the main loop runs from a
fresh pending buffer. -/
def runInserterRoutine {Val : Type} (tableRes : Except Err String)
    (creationErrChan : Option Nat) (ctx : WriterCtx)
    (polls : List (Poll Val)) : RunResult Val :=
  match tableRes with
  | Except.error e =>
    { events := WEvent.errTrySend creationErrChan e ::
        runInserterRoutineFailure e polls,
      outcome := Outcome.exited, finalPending := emptyPendingBuffer Val }
  | Except.ok _ =>
    runLoop ctx polls { pending := emptyPendingBuffer Val, flushCount := 0 }

/-- Total sample count of a write request, numRows of
pgxInserter.InsertData (the request map is modelled as a list in some
iteration order). -/
def totalRows {Val : Type} (rows : List (String × List (samplesInfo Val))) : Nat :=
  (rows.map (fun md => sampleRowCount md.2)).sum

/-- Observable outcome of pgxInserter.InsertData: the returned row
count and error, the latch initialization, the enqueued per-metric
requests, and the effects of the asynchronous acknowledgement task
(the drop log with its row count, and the throughput counter after the
task, none when the counter pointer is nil). -/
structure InsertDataOutcome (Val : Type) where
  numRows : Nat
  err : Option Err
  latchInit : Nat
  enqueued : List (insertDataRequest Val)
  asyncLogDrop : Option Nat
  counterAfter : Option Int
deriving Repr

/-- Go pgxInserter.InsertData, lines 429-466: numRows is the total
sample count; the latch is initialized to len(rows), the number of
metrics; one request per metric is enqueued, all sharing the one latch
and the one 1-capacity error sink.  sinkOutcome is the value the
nonblocking errChan read yields once the latch reaches zero.  In
synchronous mode the call returns (numRows, sinkOutcome).  In
asynchronous mode it returns (numRows, nil) and the background task
logs dropping numRows datapoints on error, and on success adds numRows
to the throughput counter when the counter exists. -/
def InsertData {Val : Type} (asyncAcks : Bool) (insertedDatapoints : Option Int)
    (latch sink : Nat) (sinkOutcome : Option Err)
    (rows : List (String × List (samplesInfo Val))) : InsertDataOutcome Val :=
  let n := totalRows rows
  let reqs := rows.map (fun md =>
    ({ metric := md.1, data := md.2, finished := some latch,
       errChan := some sink } : insertDataRequest Val))
  if asyncAcks then
    { numRows := n, err := none, latchInit := rows.length, enqueued := reqs,
      asyncLogDrop := if sinkOutcome.isSome then some n else none,
      counterAfter :=
        if sinkOutcome.isSome then insertedDatapoints
        else insertedDatapoints.map (fun c => c + (n : Int)) }
  else
    { numRows := n, err := sinkOutcome, latchInit := rows.length,
      enqueued := reqs, asyncLogDrop := none,
      counterAfter := insertedDatapoints }

/-! Concrete fixtures used by counterexamples and witnesses. -/

def strA : String := String.mk ['a']

def strB : String := String.mk ['b']

def labA : Labels := { metricName := strA, names := [strA], values := [strA] }

def labB : Labels := { metricName := strA, names := [strB], values := [strB] }

/-- A batch with no samples at all (a remote-write time series can be
empty). -/
def emptySamplesBatch : samplesInfo Int :=
  { labels := some labA, seriesID := 3, samples := [] }

/-- Iterator state over two empty batches, as a pending buffer holding
them would hand to CopyFrom. -/
def iterTwoEmpty : SampleInfoIterator Int :=
  { sampleInfos := [emptySamplesBatch, emptySamplesBatch],
    sampleInfoIndex := 0, sampleIndex := -1 }

/-- One batch carrying 2001 samples. -/
def bigBatch : samplesInfo Int :=
  { labels := some labA, seriesID := 5,
    samples := List.replicate 2001 ({ Timestamp := 0, Value := 0 } : Sample Int) }

def bigReq : insertDataRequest Int :=
  { metric := strA, data := [bigBatch], finished := some 1, errChan := some 2 }

/-- A request with 2001 batches, each with no samples. -/
def manyBatchesReq : insertDataRequest Int :=
  { metric := strA, data := List.replicate 2001 emptySamplesBatch,
    finished := some 1, errChan := some 2 }

/-- One batch carrying a single sample. -/
def oneBatch : samplesInfo Int :=
  { labels := some labA, seriesID := 5,
    samples := [({ Timestamp := 1700000000000, Value := 1 } : Sample Int)] }

def oneReq : insertDataRequest Int :=
  { metric := strA, data := [oneBatch], finished := some 1, errChan := some 2 }

def emptyDataReq : insertDataRequest Int :=
  { metric := strA, data := [], finished := some 3, errChan := some 4 }

/-- Writer context with an empty series cache and a store whose
flushes all succeed. -/
def ctxOk : WriterCtx := { seriesCache := [], flushErrs := fun _ => none }

/-- Effect of fillKnowSeriesIds on a single batch: an already resolved
batch is untouched; otherwise a cache hit writes the cached id back
(keeping the labels reference, see the dead store at line 696) and a
miss leaves the batch as is. -/
def fillOne {Val : Type} (cache : SeriesCache) (si : samplesInfo Val) :
    samplesInfo Val :=
  if -1 < si.seriesID then si
  else
    match si.labels with
    | some l =>
      match cacheLookup cache l with
      | some id => { si with seriesID := id }
      | none => si
    | none => si

/-- Clusters built by setSeriesIds: the unresolved remainder after the
cache fill, sorted by label comparison and grouped by consecutive
label equality. -/
def clustersOf {Val : Type} (cache : SeriesCache)
    (infos : List (samplesInfo Val)) : List (List (Nat × Labels)) :=
  groupConsecutive ((missingSeries (fillKnowSeriesIds cache infos).1).mergeSort labelsLe)

/-- Series id of the batch at index i after setSeriesIds ran. -/
def finalSeriesId {Val : Type} (resp : Nat → SeriesID) (cache : SeriesCache)
    (infos : List (samplesInfo Val)) (i : Nat) : Option SeriesID :=
  ((setSeriesIds resp cache infos).1[i]?).map (fun si => si.seriesID)

/-- Unresolved batch with labels labA. -/
def unresolvedA : samplesInfo Int :=
  { labels := some labA, seriesID := -1, samples := [] }

/-- Unresolved batch with labels labB. -/
def unresolvedB : samplesInfo Int :=
  { labels := some labB, seriesID := -1, samples := [] }

end PgModel

namespace PgModel

/-! Helper lemmas. -/

theorem doneLatches_append {Val : Type} (a b : List (WEvent Val)) :
    doneLatches (a ++ b) = doneLatches a ++ doneLatches b := by
  induction a with
  | nil => rfl
  | cons e rest ih => cases e <;> simp [doneLatches, ih]

theorem errSends_append {Val : Type} (a b : List (WEvent Val)) :
    errSends (a ++ b) = errSends a ++ errSends b := by
  induction a with
  | nil => rfl
  | cons e rest ih => cases e <;> simp [errSends, ih]

theorem flushEvents_append {Val : Type} (a b : List (WEvent Val)) :
    flushEvents (a ++ b) = flushEvents a ++ flushEvents b := by
  induction a with
  | nil => rfl
  | cons e rest ih => cases e <;> simp [flushEvents, ih]

theorem doneLatches_taskEvents {Val : Type} (err : Option Err)
    (ts : List insertDataTask) :
    doneLatches (taskEvents err ts : List (WEvent Val)) = ts.map (fun t => t.finished) := by
  induction ts with
  | nil => rfl
  | cons t rest ih => cases err <;> simp [taskEvents, doneLatches, ih]

theorem doneLatches_flushPending {Val : Type} (err : Option Err)
    (p : pendingBuffer Val) :
    doneLatches (flushPending err p).1 = p.needsResponse.map (fun t => t.finished) := by
  show doneLatches ((WEvent.flush p.batch.sampleInfos err : WEvent Val) :: _) = _
  simp only [doneLatches]
  exact doneLatches_taskEvents err p.needsResponse

theorem errSends_taskEvents_none {Val : Type} (ts : List insertDataTask) :
    errSends (taskEvents none ts : List (WEvent Val)) = [] := by
  induction ts with
  | nil => rfl
  | cons t rest ih => simpa [taskEvents, errSends] using ih

theorem errSends_flushPending_none {Val : Type} (p : pendingBuffer Val) :
    errSends (flushPending none p).1 = [] := by
  show errSends ((WEvent.flush p.batch.sampleInfos none : WEvent Val) :: _) = _
  simp only [errSends]
  exact errSends_taskEvents_none p.needsResponse

theorem addReq_needsResponse {Val : Type} (p : pendingBuffer Val)
    (req : insertDataRequest Val) :
    (p.addReq req).1.needsResponse =
      p.needsResponse ++ [⟨req.finished, req.errChan⟩] := rfl

theorem addReq_sampleInfos {Val : Type} (p : pendingBuffer Val)
    (req : insertDataRequest Val) :
    (p.addReq req).1.batch.sampleInfos = p.batch.sampleInfos ++ req.data := rfl

theorem runInserterRoutineFailure_eq {Val : Type} (e : Err)
    (polls : List (Poll Val)) :
    runInserterRoutineFailure e polls =
      (recvs polls).flatMap (fun r =>
        [WEvent.errTrySend r.errChan (Err.insertRoutineFailed e),
         WEvent.done r.finished]) := by
  induction polls with
  | nil => rfl
  | cons p rest ih =>
    cases p <;> simp [runInserterRoutineFailure, recvs, ih]

theorem doneLatches_runFailure {Val : Type} (e : Err) (polls : List (Poll Val)) :
    doneLatches (runInserterRoutineFailure e polls) =
      (recvs polls).map (fun r => r.finished) := by
  induction polls with
  | nil => rfl
  | cons p rest ih =>
    cases p <;> simp [runInserterRoutineFailure, recvs, doneLatches, ih]

theorem runLoop_nil_events {Val : Type} (ctx : WriterCtx) (st : WriterState Val) :
    (runLoop ctx [] st).events = [] := by
  unfold runLoop
  split
  · split <;> rfl
  · rfl

theorem runLoop_nil_finalPending {Val : Type} (ctx : WriterCtx) (st : WriterState Val) :
    (runLoop ctx [] st).finalPending = st.pending := by
  unfold runLoop
  split
  · split <;> rfl
  · rfl

theorem flushPending_needsResponse {Val : Type} (err : Option Err)
    (p : pendingBuffer Val) : (flushPending err p).2.needsResponse = [] := rfl

theorem errSends_handleReq_none {Val : Type} (cache : SeriesCache)
    (st : WriterState Val) (req : insertDataRequest Val) :
    errSends (handleReq ⟨cache, fun _ => none⟩ st req).2 = [] := by
  simp only [handleReq]
  split
  · exact errSends_flushPending_none _
  · rfl

theorem errSends_runLoop_none {Val : Type} (cache : SeriesCache) :
    ∀ (polls : List (Poll Val)) (st : WriterState Val),
      errSends (runLoop ⟨cache, fun _ => none⟩ polls st).events = [] := by
  intro polls
  induction polls with
  | nil =>
    intro st
    rw [runLoop_nil_events]
    rfl
  | cons p rest ih =>
    intro st
    cases p with
    | recv r =>
      cases hb : st.pending.hasPendingReqs with
      | true =>
        simp only [runLoop, hb, if_true]
        split
        · simp [errSends_append, errSends_handleReq_none, errSends_flushPending_none, ih]
        · simp [errSends_append, errSends_handleReq_none, ih]
      | false =>
        simp only [runLoop, hb, Bool.false_eq_true, if_false]
        simp [errSends_append, errSends_handleReq_none, ih]
    | empty =>
      cases hb : st.pending.hasPendingReqs with
      | true =>
        simp only [runLoop, hb, if_true]
        simp [errSends_append, errSends_flushPending_none, ih]
      | false =>
        simp only [runLoop, hb, Bool.false_eq_true, if_false]
        exact ih st

theorem handleReq_accounting {Val : Type} (ctx : WriterCtx) (st : WriterState Val)
    (req : insertDataRequest Val) :
    doneLatches (handleReq ctx st req).2 ++
      (handleReq ctx st req).1.pending.needsResponse.map (fun t => t.finished) =
    st.pending.needsResponse.map (fun t => t.finished) ++ [req.finished] := by
  simp only [handleReq]
  split
  · rw [doneLatches_flushPending, flushPending_needsResponse]
    simp [addReq_needsResponse]
  · simp [doneLatches, addReq_needsResponse]

theorem runLoop_accounting {Val : Type} (ctx : WriterCtx) :
    ∀ (polls : List (Poll Val)) (st : WriterState Val),
      (runLoop ctx polls st).outcome = Outcome.exited →
      doneLatches (runLoop ctx polls st).events ++
        (runLoop ctx polls st).finalPending.needsResponse.map (fun t => t.finished) =
      st.pending.needsResponse.map (fun t => t.finished) ++
        (recvs polls).map (fun r => r.finished) := by
  intro polls
  induction polls with
  | nil =>
    intro st _
    rw [runLoop_nil_events, runLoop_nil_finalPending]
    simp [recvs, doneLatches]
  | cons p rest ih =>
    intro st hex
    cases p with
    | recv r =>
      cases hb : st.pending.hasPendingReqs with
      | true =>
        simp only [runLoop, hb, if_true] at hex ⊢
        by_cases hcond :
            flushSize ≤ (handleReq ctx st r).1.pending.batch.sampleInfos.length
        · rw [if_pos hcond] at hex ⊢
          have ihr := ih _ hex
          simp only [flushPending_needsResponse, List.map_nil, List.nil_append] at ihr
          simp only [doneLatches_append, List.append_assoc]
          rw [ihr, doneLatches_flushPending, ← List.append_assoc,
            handleReq_accounting ctx st r]
          simp [recvs]
        · rw [if_neg hcond] at hex ⊢
          have ihr := ih _ hex
          simp only [doneLatches_append, List.append_assoc]
          rw [ihr, ← List.append_assoc, handleReq_accounting ctx st r]
          simp [recvs]
      | false =>
        simp only [runLoop, hb, Bool.false_eq_true, if_false] at hex ⊢
        have ihr := ih _ hex
        simp only [doneLatches_append, List.append_assoc]
        rw [ihr, ← List.append_assoc, handleReq_accounting ctx st r]
        simp [recvs]
    | empty =>
      cases hb : st.pending.hasPendingReqs with
      | true =>
        simp only [runLoop, hb, if_true] at hex ⊢
        have ihr := ih _ hex
        simp only [flushPending_needsResponse, List.map_nil, List.nil_append] at ihr
        simp only [doneLatches_append, List.append_assoc]
        rw [ihr, doneLatches_flushPending]
        simp [recvs]
      | false =>
        simp only [runLoop, hb, Bool.false_eq_true, if_false] at hex ⊢
        rw [ih _ hex]
        simp [recvs]

/-! Lemmas about the series-id resolution of setSeriesIds. -/

theorem groupConsecutive_cons (xs : List (Nat × Labels)) :
    ∀ x, ∃ t gs, groupConsecutive (x :: xs) = (x :: t) :: gs := by
  induction xs with
  | nil => exact fun x => ⟨[], [], rfl⟩
  | cons y ys ih =>
    intro x
    obtain ⟨t, gs, hg⟩ := ih y
    by_cases he : x.2 = y.2
    · exact ⟨y :: t, gs, by simp [groupConsecutive, hg, he]⟩
    · exact ⟨[], (y :: t) :: gs, by simp [groupConsecutive, hg, he]⟩

theorem flatten_groupConsecutive :
    ∀ l : List (Nat × Labels), (groupConsecutive l).flatten = l := by
  intro l
  induction l with
  | nil => rfl
  | cons x xs ih =>
    cases xs with
    | nil => rfl
    | cons y ys =>
      obtain ⟨t, gs, hg⟩ := groupConsecutive_cons ys y
      rw [hg] at ih
      simp only [List.flatten_cons] at ih
      by_cases he : x.2 = y.2 <;>
        simp [groupConsecutive, hg, he, List.flatten_cons, ih]

theorem ne_nil_of_mem_groupConsecutive :
    ∀ (l : List (Nat × Labels)) c, c ∈ groupConsecutive l → c ≠ [] := by
  intro l
  induction l with
  | nil => intro c hc; simp [groupConsecutive] at hc
  | cons x xs ih =>
    intro c hc
    cases xs with
    | nil =>
      simp only [groupConsecutive, List.mem_singleton] at hc
      simp [hc]
    | cons y ys =>
      obtain ⟨t, gs, hg⟩ := groupConsecutive_cons ys y
      by_cases he : x.2 = y.2
      · simp only [groupConsecutive, hg, he, if_true, List.headD_cons,
          List.tail_cons, List.mem_cons] at hc
        rcases hc with hc | hc
        · simp [hc]
        · exact ih c (by rw [hg]; exact List.mem_cons_of_mem _ hc)
      · simp only [groupConsecutive, hg, he, if_false, List.mem_cons] at hc
        rcases hc with hc | hc
        · simp [hc]
        · exact ih c (by rw [hg]; exact List.mem_cons.mpr hc)

theorem mem_of_mem_groupConsecutive {l : List (Nat × Labels)}
    {c : List (Nat × Labels)} {z : Nat × Labels}
    (hc : c ∈ groupConsecutive l) (hz : z ∈ c) : z ∈ l := by
  rw [← flatten_groupConsecutive l]
  exact List.mem_flatten.mpr ⟨c, hc, hz⟩

theorem labels_const_groupConsecutive :
    ∀ (l : List (Nat × Labels)) c, c ∈ groupConsecutive l →
      ∀ z ∈ c, z.2 = headLabels c := by
  intro l
  induction l with
  | nil => intro c hc; simp [groupConsecutive] at hc
  | cons x xs ih =>
    intro c hc z hz
    cases xs with
    | nil =>
      simp only [groupConsecutive, List.mem_singleton] at hc
      subst hc
      simp only [List.mem_singleton] at hz
      simp [hz, headLabels]
    | cons y ys =>
      obtain ⟨t, gs, hg⟩ := groupConsecutive_cons ys y
      by_cases he : x.2 = y.2
      · simp only [groupConsecutive, hg, he, if_true, List.headD_cons,
          List.tail_cons, List.mem_cons] at hc
        rcases hc with hc | hc
        · subst hc
          simp only [List.mem_cons] at hz
          rcases hz with hz | hz
          · simp [hz, headLabels]
          · have h1 : z.2 = headLabels (y :: t) :=
              ih (y :: t) (by rw [hg]; exact List.mem_cons_self _ _) z
                (List.mem_cons.mpr hz)
            simp only [headLabels, List.headD_cons] at h1 ⊢
            rw [h1, ← he]
        · exact ih c (by rw [hg]; exact List.mem_cons_of_mem _ hc) z hz
      · simp only [groupConsecutive, hg, he, if_false, List.mem_cons] at hc
        rcases hc with hc | hc
        · subst hc
          simp only [List.mem_singleton] at hz
          simp [hz, headLabels]
        · exact ih c (by rw [hg]; exact List.mem_cons.mpr hc) z hz

/-- The label comparison key order, as a proposition. -/
def leP (a b : Nat × Labels) : Prop := a.2.key ≤ b.2.key

theorem labelsLe_eq_true_iff {a b : Nat × Labels} :
    labelsLe a b = true ↔ leP a b := by
  simp [labelsLe, leP]

theorem leP_antisymm_labels {a b : Nat × Labels}
    (h1 : leP a b) (h2 : leP b a) : a.2 = b.2 :=
  Labels.key_injective (le_antisymm h1 h2)

theorem pairwise_leP_mergeSort (l : List (Nat × Labels)) :
    List.Pairwise leP (l.mergeSort labelsLe) := by
  have h := @List.sorted_mergeSort _ labelsLe
    (fun a b c hab hbc => by
      rw [labelsLe_eq_true_iff] at hab hbc ⊢
      exact le_trans hab hbc)
    (fun a b => by
      rcases le_total a.2.key b.2.key with h | h
      · simp [labelsLe, h]
      · simp [labelsLe, h])
    l
  exact h.imp (fun hab => labelsLe_eq_true_iff.mp hab)

theorem headD_mem {c : List (Nat × Labels)} (h : c ≠ []) :
    c.headD (0, default) ∈ c := by
  cases c with
  | nil => exact absurd rfl h
  | cons a t => simp

theorem heads_pairwise_ne :
    ∀ l : List (Nat × Labels), List.Pairwise leP l →
      List.Pairwise (fun c d => headLabels c ≠ headLabels d) (groupConsecutive l) := by
  intro l
  induction l with
  | nil => intro _; simp [groupConsecutive]
  | cons x xs ih =>
    intro hp
    rw [List.pairwise_cons] at hp
    obtain ⟨hx, hp2⟩ := hp
    cases xs with
    | nil => simp [groupConsecutive]
    | cons y ys =>
      obtain ⟨t, gs, hg⟩ := groupConsecutive_cons ys y
      have ihg := ih hp2
      rw [hg] at ihg
      rw [List.pairwise_cons] at ihg
      obtain ⟨hyg, hgs⟩ := ihg
      by_cases he : x.2 = y.2
      · simp only [groupConsecutive, hg, he, if_true, List.headD_cons, List.tail_cons]
        rw [List.pairwise_cons]
        refine ⟨?_, hgs⟩
        intro d hd
        have := hyg d hd
        simpa [headLabels, he] using this
      · simp only [groupConsecutive, hg, he, if_false]
        rw [List.pairwise_cons]
        refine ⟨?_, by rw [List.pairwise_cons]; exact ⟨hyg, hgs⟩⟩
        intro d hd
        simp only [headLabels, List.headD_cons]
        intro hxd
        have hdne : d ≠ [] :=
          ne_nil_of_mem_groupConsecutive (y :: ys) d (by rw [hg]; exact hd)
        have hzd : d.headD (0, default) ∈ d := headD_mem hdne
        have hzmem : d.headD (0, default) ∈ y :: ys :=
          mem_of_mem_groupConsecutive (l := y :: ys) (by rw [hg]; exact hd) hzd
        rcases List.mem_cons.mp hzmem with hzy | hzys
        · rw [hzy] at hxd
          exact he hxd
        · have h1 : leP x y := hx y (List.mem_cons_self _ _)
          have h2 : leP y (d.headD (0, default)) :=
            (List.pairwise_cons.mp hp2).1 _ hzys
          have h3 : leP (d.headD (0, default)) x := by
            show (d.headD (0, default)).2.key ≤ x.2.key
            rw [← hxd]
          have hxy : x.2 = y.2 := by
            have hyx : leP y x := le_trans h2 h3
            exact leP_antisymm_labels h1 hyx
          exact he hxy

theorem equal_labels_same_cluster {l : List (Nat × Labels)}
    (hp : List.Pairwise leP l) {a b : Nat × Labels}
    (ha : a ∈ l) (hb : b ∈ l) (hab : a.2 = b.2) :
    ∃ c, c ∈ groupConsecutive l ∧ a ∈ c ∧ b ∈ c := by
  have ha2 : a ∈ (groupConsecutive l).flatten := by
    rw [flatten_groupConsecutive]; exact ha
  have hb2 : b ∈ (groupConsecutive l).flatten := by
    rw [flatten_groupConsecutive]; exact hb
  obtain ⟨ca, hca, haca⟩ := List.mem_flatten.mp ha2
  obtain ⟨cb, hcb, hbcb⟩ := List.mem_flatten.mp hb2
  by_cases hcc : ca = cb
  · exact ⟨ca, hca, haca, hcc ▸ hbcb⟩
  · exfalso
    have hne := (heads_pairwise_ne l hp).forall
      (fun c d (h : headLabels c ≠ headLabels d) => h.symm) hca hcb hcc
    have h1 : a.2 = headLabels ca := labels_const_groupConsecutive l ca hca a haca
    have h2 : b.2 = headLabels cb := labels_const_groupConsecutive l cb hcb b hbcb
    exact hne (by rw [← h1, ← h2, hab])

theorem lookup_of_mem_nodup :
    ∀ {ps : List (Nat × SeriesID)} {i : Nat} {v : SeriesID},
      (i, v) ∈ ps → (ps.map Prod.fst).Nodup → ps.lookup i = some v := by
  intro ps
  induction ps with
  | nil => intro i v h; simp at h
  | cons kv rest ih =>
    intro i v hmem hnd
    obtain ⟨k, w⟩ := kv
    simp only [List.map_cons, List.nodup_cons] at hnd
    rcases List.mem_cons.mp hmem with heq | hrest
    · injection heq with h1 h2
      subst h1
      subst h2
      simp [List.lookup]
    · have hk : k ≠ i := by
        intro hki
        exact hnd.1 (hki ▸ List.mem_map_of_mem Prod.fst hrest)
      have hik : (i == k) = false := beq_eq_false_iff_ne.mpr (Ne.symm hk)
      simp only [List.lookup, hik]
      exact ih hrest hnd.2

theorem lookup_append_right :
    ∀ {ps qs : List (Nat × SeriesID)} {i : Nat},
      i ∉ ps.map Prod.fst → (ps ++ qs).lookup i = qs.lookup i := by
  intro ps
  induction ps with
  | nil => intro qs i _; rfl
  | cons kv rest ih =>
    intro qs i h
    obtain ⟨k, w⟩ := kv
    simp only [List.map_cons, List.mem_cons] at h
    push_neg at h
    have hik : (i == k) = false := beq_eq_false_iff_ne.mpr h.1
    simp only [List.cons_append, List.lookup, hik]
    exact ih h.2

theorem lookup_eq_none_of_not_mem :
    ∀ {ps : List (Nat × SeriesID)} {i : Nat},
      i ∉ ps.map Prod.fst → ps.lookup i = none := by
  intro ps
  induction ps with
  | nil => intro i _; rfl
  | cons kv rest ih =>
    intro i h
    obtain ⟨k, w⟩ := kv
    simp only [List.map_cons, List.mem_cons] at h
    push_neg at h
    have hik : (i == k) = false := beq_eq_false_iff_ne.mpr h.1
    simp only [List.lookup, hik]
    exact ih h.2

theorem assignClusters_keys (resp : Nat → SeriesID) :
    ∀ (cs : List (List (Nat × Labels))) (k : Nat),
      (assignClusters resp k cs).map Prod.fst = cs.flatten.map Prod.fst := by
  intro cs
  induction cs with
  | nil => intro k; rfl
  | cons c rest ih =>
    intro k
    simp only [assignClusters, List.flatten_cons, List.map_append, ih,
      List.map_map]
    rfl

theorem assignClusters_mem (resp : Nat → SeriesID) :
    ∀ (cs : List (List (Nat × Labels))) (k : Nat) (c : List (Nat × Labels)),
      c ∈ cs → ∀ x ∈ c, ∃ j, (x.1, resp j) ∈ assignClusters resp k cs := by
  intro cs
  induction cs with
  | nil => intro k c hc; simp at hc
  | cons c0 rest ih =>
    intro k c hc x hx
    rcases List.mem_cons.mp hc with hc | hc
    · subst hc
      exact ⟨k, by
        simp only [assignClusters, List.mem_append]
        exact Or.inl (by
          have : (x.1, resp k) = (fun il => (il.1, resp k)) x := rfl
          rw [this]
          exact List.mem_map_of_mem _ hx)⟩
    · obtain ⟨j, hj⟩ := ih (k + 1) c hc x hx
      exact ⟨j, by simp only [assignClusters, List.mem_append]; exact Or.inr hj⟩

theorem lookup_same_cluster (resp : Nat → SeriesID) :
    ∀ (cs : List (List (Nat × Labels))) (k : Nat),
      ((assignClusters resp k cs).map Prod.fst).Nodup →
      ∀ c ∈ cs, ∀ x ∈ c, ∀ y ∈ c,
        ∃ id, (assignClusters resp k cs).lookup x.1 = some id ∧
          (assignClusters resp k cs).lookup y.1 = some id := by
  intro cs
  induction cs with
  | nil => intro k _ c hc; simp at hc
  | cons c0 rest ih =>
    intro k hnd c hc x hx y hy
    rcases List.mem_cons.mp hc with hc | hc
    · subst hc
      refine ⟨resp k, ?_, ?_⟩
      · exact lookup_of_mem_nodup (by
          simp only [assignClusters, List.mem_append]
          exact Or.inl (by
            have : (x.1, resp k) = (fun il => (il.1, resp k)) x := rfl
            rw [this]; exact List.mem_map_of_mem _ hx)) hnd
      · exact lookup_of_mem_nodup (by
          simp only [assignClusters, List.mem_append]
          exact Or.inl (by
            have : (y.1, resp k) = (fun il => (il.1, resp k)) y := rfl
            rw [this]; exact List.mem_map_of_mem _ hy)) hnd
    · have hsplit : assignClusters resp k (c0 :: rest) =
          c0.map (fun il => (il.1, resp k)) ++ assignClusters resp (k + 1) rest := rfl
      rw [hsplit] at hnd ⊢
      rw [List.map_append, List.nodup_append] at hnd
      obtain ⟨hnd1, hnd2, hdisj⟩ := hnd
      obtain ⟨id, hxid, hyid⟩ := ih (k + 1) hnd2 c hc x hx y hy
      have hxnot : x.1 ∉ (c0.map (fun il => (il.1, resp k))).map Prod.fst := by
        intro hin
        obtain ⟨j, hj⟩ := assignClusters_mem resp rest (k + 1) c hc x hx
        exact hdisj hin (List.mem_map_of_mem Prod.fst hj)
      have hynot : y.1 ∉ (c0.map (fun il => (il.1, resp k))).map Prod.fst := by
        intro hin
        obtain ⟨j, hj⟩ := assignClusters_mem resp rest (k + 1) c hc y hy
        exact hdisj hin (List.mem_map_of_mem Prod.fst hj)
      exact ⟨id, by rw [lookup_append_right hxnot]; exact hxid,
        by rw [lookup_append_right hynot]; exact hyid⟩

theorem applyAssignments_getElem? {Val : Type} (A : List (Nat × SeriesID)) :
    ∀ (infos : List (samplesInfo Val)) (n i : Nat),
      (applyAssignments A n infos)[i]? =
        (infos[i]?).map (fun si =>
          match A.lookup (n + i) with
          | some id => { si with seriesID := id }
          | none => si) := by
  intro infos
  induction infos with
  | nil => intro n i; simp [applyAssignments]
  | cons si rest ih =>
    intro n i
    cases i with
    | zero => simp [applyAssignments]
    | succ i =>
      simp only [applyAssignments, List.getElem?_cons_succ]
      rw [ih (n + 1) i]
      have harith : n + 1 + i = n + (i + 1) := by omega
      simp only [harith]

theorem fillKnow_eq_map {Val : Type} (cache : SeriesCache) :
    ∀ infos : List (samplesInfo Val),
      (fillKnowSeriesIds cache infos).1 = infos.map (fillOne cache) := by
  intro infos
  induction infos with
  | nil => rfl
  | cons si rest ih =>
    simp only [fillKnowSeriesIds, List.map_cons, ← ih]
    by_cases h1 : -1 < si.seriesID
    · simp [fillOne, h1]
    · cases hl : si.labels with
      | none => simp [fillOne, h1, hl]
      | some l => cases hc : cacheLookup cache l <;> simp [fillOne, h1, hl, hc]

theorem fillKnow_count_zero {Val : Type} (cache : SeriesCache) :
    ∀ infos : List (samplesInfo Val),
      (fillKnowSeriesIds cache infos).2 = 0 →
      ∀ si ∈ infos, si.seriesID < 0 →
        ∃ l id, si.labels = some l ∧ cacheLookup cache l = some id := by
  intro infos
  induction infos with
  | nil => intro _ si h; simp at h
  | cons s0 rest ih =>
    intro hz si hmem hneg
    rcases List.mem_cons.mp hmem with hsi | hsi
    · subst hsi
      have h1 : ¬(-1 < si.seriesID) := by omega
      simp only [fillKnowSeriesIds, h1, if_false] at hz
      cases hl : si.labels with
      | none => rw [hl] at hz; simp at hz
      | some l =>
        cases hc : cacheLookup cache l with
        | none => rw [hl] at hz; simp [hc] at hz
        | some id => exact ⟨l, id, rfl, hc⟩
    · refine ih ?_ si hsi hneg
      simp only [fillKnowSeriesIds] at hz
      by_cases h1 : -1 < s0.seriesID
      · rw [if_pos h1] at hz
        exact hz
      · rw [if_neg h1] at hz
        cases hl : s0.labels with
        | none => rw [hl] at hz; simp at hz
        | some l =>
          cases hc : cacheLookup cache l with
          | none => rw [hl] at hz; simp [hc] at hz
          | some id =>
            rw [hl] at hz
            simp only [hc] at hz
            exact hz

theorem mem_missingSeries_iff {Val : Type} {infos : List (samplesInfo Val)}
    {i : Nat} {lab : Labels} :
    (i, lab) ∈ missingSeries infos ↔
      ∃ si, infos[i]? = some si ∧ si.seriesID < 0 ∧
        lab = si.labels.getD default := by
  simp only [missingSeries, List.mem_map, List.mem_filter,
    List.mem_enum_iff_getElem?, decide_eq_true_eq, Prod.mk.injEq]
  constructor
  · rintro ⟨⟨i0, si⟩, ⟨hg, hs⟩, hi, hl⟩
    exact ⟨si, by rw [← hi]; exact hg, hs, hl.symm⟩
  · rintro ⟨si, hg, hs, hl⟩
    exact ⟨(i, si), ⟨hg, hs⟩, rfl, hl.symm⟩

theorem missingSeries_keys_nodup {Val : Type} (infos : List (samplesInfo Val)) :
    ((missingSeries infos).map Prod.fst).Nodup := by
  have h1 : (missingSeries infos).map Prod.fst =
      (infos.enum.filter (fun p => decide (p.2.seriesID < 0))).map Prod.fst := by
    simp only [missingSeries, List.map_map]
    rfl
  rw [h1]
  refine ((List.filter_sublist _).map Prod.fst).nodup ?_
  rw [List.enum_map_fst]
  exact List.nodup_range _

theorem finalSeriesId_eq {Val : Type} (resp : Nat → SeriesID) (cache : SeriesCache)
    (infos : List (samplesInfo Val))
    (hcz : (fillKnowSeriesIds cache infos).2 ≠ 0) (i : Nat) :
    finalSeriesId resp cache infos i =
      ((fillKnowSeriesIds cache infos).1[i]?).map (fun si =>
        match (assignClusters resp 0 (clustersOf cache infos)).lookup i with
        | some id => id
        | none => si.seriesID) := by
  have hset : (setSeriesIds resp cache infos).1 =
      applyAssignments (assignClusters resp 0 (clustersOf cache infos)) 0
        (fillKnowSeriesIds cache infos).1 := by
    simp only [setSeriesIds, clustersOf]
    rw [if_neg hcz]
  simp only [finalSeriesId, hset, applyAssignments_getElem?, Option.map_map,
    Nat.zero_add]
  cases (fillKnowSeriesIds cache infos).1[i]? with
  | none => rfl
  | some si =>
    cases hl : (assignClusters resp 0 (clustersOf cache infos)).lookup i <;>
      simp [hl]

theorem assignKeys_nodup {Val : Type} (resp : Nat → SeriesID) (cache : SeriesCache)
    (infos : List (samplesInfo Val)) :
    ((assignClusters resp 0 (clustersOf cache infos)).map Prod.fst).Nodup := by
  rw [assignClusters_keys, clustersOf, flatten_groupConsecutive]
  have hperm : ((missingSeries (fillKnowSeriesIds cache infos).1).mergeSort
      labelsLe).Perm (missingSeries (fillKnowSeriesIds cache infos).1) :=
    List.mergeSort_perm _ _
  exact ((hperm.map Prod.fst).symm).nodup
    (missingSeries_keys_nodup (fillKnowSeriesIds cache infos).1)

theorem final_eq_of_mem_missing {Val : Type} (resp : Nat → SeriesID)
    (cache : SeriesCache) (infos : List (samplesInfo Val))
    (hcz : (fillKnowSeriesIds cache infos).2 ≠ 0) {i j : Nat} {l : Labels}
    (hi : (i, l) ∈ missingSeries (fillKnowSeriesIds cache infos).1)
    (hj : (j, l) ∈ missingSeries (fillKnowSeriesIds cache infos).1) :
    finalSeriesId resp cache infos i = finalSeriesId resp cache infos j ∧
      (finalSeriesId resp cache infos i).isSome := by
  have hperm : ((missingSeries (fillKnowSeriesIds cache infos).1).mergeSort
      labelsLe).Perm (missingSeries (fillKnowSeriesIds cache infos).1) :=
    List.mergeSort_perm _ _
  have hsorted := pairwise_leP_mergeSort (missingSeries (fillKnowSeriesIds cache infos).1)
  have hiS : (i, l) ∈ (missingSeries (fillKnowSeriesIds cache infos).1).mergeSort
      labelsLe := hperm.symm.subset hi
  have hjS : (j, l) ∈ (missingSeries (fillKnowSeriesIds cache infos).1).mergeSort
      labelsLe := hperm.symm.subset hj
  obtain ⟨c, hcCL, hic, hjc⟩ :=
    equal_labels_same_cluster hsorted hiS hjS rfl
  obtain ⟨id2, hxl, hyl⟩ := lookup_same_cluster resp _ 0
    (assignKeys_nodup resp cache infos) c hcCL (i, l) hic (j, l) hjc
  obtain ⟨si0, hgi0, _, _⟩ := mem_missingSeries_iff.mp hi
  obtain ⟨sj0, hgj0, _, _⟩ := mem_missingSeries_iff.mp hj
  rw [finalSeriesId_eq resp cache infos hcz i, finalSeriesId_eq resp cache infos hcz j,
    hgi0, hgj0]
  simp only [Option.map_some] at hxl hyl ⊢
  rw [hxl, hyl]
  simp

theorem mem_of_getElem?_some {α : Type} {l : List α} {i : Nat} {a : α}
    (h : l[i]? = some a) : a ∈ l := by
  obtain ⟨hlt, hv⟩ := List.getElem?_eq_some_iff.mp h
  exact hv ▸ List.getElem_mem hlt

theorem not_mem_assign_keys {Val : Type} (resp : Nat → SeriesID)
    (cache : SeriesCache) (infos : List (samplesInfo Val)) {i : Nat}
    (h : ∀ si0, (fillKnowSeriesIds cache infos).1[i]? = some si0 →
      ¬ si0.seriesID < 0) :
    i ∉ (assignClusters resp 0 (clustersOf cache infos)).map Prod.fst := by
  rw [assignClusters_keys, clustersOf, flatten_groupConsecutive]
  intro hin
  have hperm : ((missingSeries (fillKnowSeriesIds cache infos).1).mergeSort
      labelsLe).Perm (missingSeries (fillKnowSeriesIds cache infos).1) :=
    List.mergeSort_perm _ _
  have hin2 : i ∈ (missingSeries (fillKnowSeriesIds cache infos).1).map Prod.fst :=
    ((hperm.map Prod.fst).mem_iff).mp hin
  obtain ⟨p, hp, hpi⟩ := List.mem_map.mp hin2
  obtain ⟨pi, pl⟩ := p
  simp only at hpi
  subst hpi
  obtain ⟨si0, hg0, hneg0, _⟩ := mem_missingSeries_iff.mp hp
  exact h si0 hg0 hneg0

/-! Claim theorems. -/

/-- C1: for every write request, InsertData initializes the completion
latch to the number of metrics of the request (the length of the rows
map, not the number of batches) and enqueues exactly one per-metric
request per metric; and every enqueued request decrements the latch
exactly once on every outcome: a flush delivers exactly one Done per
attached task whether it succeeded or failed, addReq attaches exactly
one task per request, the poisoned drain decrements once per dequeued
request, and over any writer run that exits, the decremented latches
together with the tasks still parked in the final buffer are exactly
the latches of the received requests, each once, in order. -/
theorem C1_latch_init_and_exactly_once_decrement {Val : Type}
    (asyncAcks : Bool) (idp : Option Int) (latch sink : Nat) (so : Option Err)
    (rows : List (String × List (samplesInfo Val))) (ctx : WriterCtx) :
    (InsertData asyncAcks idp latch sink so rows).latchInit = rows.length ∧
    (InsertData asyncAcks idp latch sink so rows).enqueued.length = rows.length ∧
    (∀ (err : Option Err) (p : pendingBuffer Val),
      doneLatches (flushPending err p).1 =
        p.needsResponse.map (fun t => t.finished)) ∧
    (∀ (p : pendingBuffer Val) (req : insertDataRequest Val),
      (p.addReq req).1.needsResponse =
        p.needsResponse ++ [⟨req.finished, req.errChan⟩]) ∧
    (∀ (e : Err) (polls : List (Poll Val)),
      doneLatches (runInserterRoutineFailure e polls) =
        (recvs polls).map (fun r => r.finished)) ∧
    (∀ (polls : List (Poll Val)) (st : WriterState Val),
      (runLoop ctx polls st).outcome = Outcome.exited →
      doneLatches (runLoop ctx polls st).events ++
        (runLoop ctx polls st).finalPending.needsResponse.map (fun t => t.finished) =
      st.pending.needsResponse.map (fun t => t.finished) ++
        (recvs polls).map (fun r => r.finished)) := by
  refine ⟨?_, ?_, doneLatches_flushPending, addReq_needsResponse,
    doneLatches_runFailure, runLoop_accounting ctx⟩
  · cases asyncAcks <;> rfl
  · cases asyncAcks <;> simp [InsertData]

/-- Witness for C1 at concrete inputs: a one-metric request yields
latch count one, and a writer run receiving one request then observing
an empty mailbox exits having decremented exactly that latch. -/
theorem C1_witness :
    (InsertData false none 1 2 none [(strA, [oneBatch])]).latchInit = 1 ∧
    doneLatches (runLoop ctxOk [Poll.recv oneReq, Poll.empty]
        ⟨emptyPendingBuffer Int, 0⟩).events ++
      (runLoop ctxOk [Poll.recv oneReq, Poll.empty]
        ⟨emptyPendingBuffer Int, 0⟩).finalPending.needsResponse.map
          (fun t => t.finished) =
    (emptyPendingBuffer Int).needsResponse.map (fun t => t.finished) ++
      (recvs [Poll.recv oneReq, Poll.empty]).map (fun r => r.finished) := by
  have h := @C1_latch_init_and_exactly_once_decrement Int
    false none 1 2 none [(strA, [oneBatch])] ctxOk
  exact ⟨h.1, h.2.2.2.2.2 [Poll.recv oneReq, Poll.empty]
    ⟨emptyPendingBuffer Int, 0⟩ (by decide)⟩

/-- C2 counterexample: the claim says the size trigger compares the
pending row count, the sum of len(samples) over buffered batches, with
2000, flushing whenever the sample total exceeds 2000.  A single
request holding one batch of 2001 samples brings the sample total to
2001, yet addReq reports no flush needed, because the source compares
the number of buffered batches, here 1, with flushSize. -/
theorem C2_sample_total_does_not_trigger_flush :
    sampleRowCount ((emptyPendingBuffer Int).addReq bigReq).1.batch.sampleInfos = 2001 ∧
    flushSize < 2001 ∧
    ((emptyPendingBuffer Int).addReq bigReq).2 = false := by
  refine ⟨?_, by decide, ?_⟩
  · simp only [pendingBuffer.addReq, emptyPendingBuffer, NewSampleInfoIterator,
      bigReq, List.nil_append, sampleRowCount, List.map_cons, List.map_nil,
      List.sum_cons, List.sum_nil, bigBatch, List.length_replicate, Nat.add_zero]
  · simp only [pendingBuffer.addReq, emptyPendingBuffer, NewSampleInfoIterator,
      bigReq, List.nil_append, List.length_cons, List.length_nil, flushSize]
    decide

/-- C2 amended: the size-based trigger of the writer compares the
number of buffered batches, len of sampleInfos, against flushSize =
2000; addReq reports a flush exactly when the batch count strictly
exceeds 2000, regardless of the sample total: a buffer of 2001 empty
batches triggers although its sample total is zero. -/
theorem C2_batch_count_is_the_trigger {Val : Type} (p : pendingBuffer Val)
    (req : insertDataRequest Val) :
    ((p.addReq req).2 = true ↔
      flushSize < (p.addReq req).1.batch.sampleInfos.length) ∧
    ((emptyPendingBuffer Int).addReq manyBatchesReq).2 = true ∧
    sampleRowCount
      ((emptyPendingBuffer Int).addReq manyBatchesReq).1.batch.sampleInfos = 0 := by
  refine ⟨?_, ?_, ?_⟩
  · show decide _ = true ↔ _
    exact decide_eq_true_iff
  · simp only [pendingBuffer.addReq, emptyPendingBuffer, NewSampleInfoIterator,
      manyBatchesReq, List.nil_append, List.length_replicate, flushSize]
    decide
  · simp only [pendingBuffer.addReq, emptyPendingBuffer, NewSampleInfoIterator,
      manyBatchesReq, List.nil_append, sampleRowCount, List.map_replicate,
      emptySamplesBatch, List.length_nil, List.sum_replicate]
    simp

/-- C3: the claim says the row source enumerates exactly the sum of
len(samples) rows of a pending buffer.  Evaluating the iterator at a
buffer of two batches that both carry zero samples: Next reports that
a row exists although the sample total is zero, and reading the row
is an out-of-range slice access, a Go panic, modelled as none.  This
contradicts the claim and the own documentation of Next, which
promises that Next returns true only if there is another row. -/
theorem C3_iterator_claims_row_in_empty_batches :
    (iterTwoEmpty.Next).2 = true ∧ (iterTwoEmpty.Next).1.Values = none ∧
      sampleRowCount iterTwoEmpty.sampleInfos = 0 := by decide

/-- C5: when table resolution fails with e, the writer first try-sends
e to the error sink of the creating request, then drains its mailbox
in the terminal poisoned state until it is closed: every dequeued
request has the wrapped error try-sent to its own error sink (the %w
wrap of e, so the request observably receives that error; a full sink
drops it) and its latch decremented exactly once, after which the
writer exits; and a writer for another metric whose table resolution
succeeded and whose flushes succeed never emits any error send. -/
theorem C5_table_resolution_failure_poisons_writer {Val : Type} (e : Err)
    (c : Option Nat) (ctx : WriterCtx) (polls : List (Poll Val)) :
    (runInserterRoutine (Except.error e) c ctx polls).events =
      WEvent.errTrySend c e ::
        (recvs polls).flatMap (fun r =>
          [WEvent.errTrySend r.errChan (Err.insertRoutineFailed e),
           WEvent.done r.finished]) ∧
    (runInserterRoutine (Except.error e) c ctx polls).outcome = Outcome.exited ∧
    doneLatches (runInserterRoutine (Except.error e) c ctx polls).events =
      (recvs polls).map (fun r => r.finished) ∧
    (∀ (tbl : String) (cache : SeriesCache) (polls2 : List (Poll Val)),
      errSends
        (runInserterRoutine (Except.ok tbl) c ⟨cache, fun _ => none⟩ polls2).events
        = []) := by
  refine ⟨?_, rfl, ?_, ?_⟩
  · show WEvent.errTrySend c e :: runInserterRoutineFailure e polls = _
    rw [runInserterRoutineFailure_eq]
  · show doneLatches (WEvent.errTrySend c e :: runInserterRoutineFailure e polls) = _
    simp [doneLatches, doneLatches_runFailure]
  · intro tbl cache polls2
    exact errSends_runLoop_none cache polls2 _

/-- C6: InsertData always returns numRows equal to the total sample
count of the request, in synchronous mode together with whatever the
error sink held, error or not; in asynchronous mode it returns
numRows with no error, and the background task logs dropping numRows
datapoints when the sink held an error, and on success adds numRows to
the throughput counter when the counter exists. -/
theorem C6_insert_returns_total_rows_even_on_error {Val : Type}
    (idp : Option Int) (latch sink : Nat) (so : Option Err)
    (rows : List (String × List (samplesInfo Val))) :
    (InsertData false idp latch sink so rows).numRows = totalRows rows ∧
    (InsertData false idp latch sink so rows).err = so ∧
    (InsertData true idp latch sink so rows).numRows = totalRows rows ∧
    (InsertData true idp latch sink so rows).err = none ∧
    (InsertData true idp latch sink so rows).asyncLogDrop =
      (if so.isSome then some (totalRows rows) else none) ∧
    (InsertData true idp latch sink so rows).counterAfter =
      (if so.isSome then idp
       else idp.map (fun cnt => cnt + (totalRows rows : Int))) :=
  ⟨rfl, rfl, rfl, rfl, rfl, rfl⟩

/-- C7: the claim says that on a series-cache hit the batch stored in
the buffer is assigned the cached id and its labels reference is
dropped.  Evaluating fillKnowSeriesIds at an unresolved batch whose
labels are cached with id 7: the stored batch receives seriesID 7 but
its labels field is still the original reference, not nil, because the
source assigns nil to the range-loop copy of the element, a dead
store. -/
theorem C7_labels_reference_survives_cache_hit :
    fillKnowSeriesIds [(labA, 7)]
        [({ labels := some labA, seriesID := -1, samples := [] } : samplesInfo Int)] =
      ([{ labels := some labA, seriesID := 7, samples := [] }], 0) ∧
    ((fillKnowSeriesIds [(labA, 7)]
        [({ labels := some labA, seriesID := -1, samples := [] } : samplesInfo Int)]).1.headD
      default).labels = some labA := by decide

/-- C8: the claim says a writer whose mailbox closes flushes any
remnants and exits even when the close is observed in hot-receive
mode.  With an empty buffer the writer indeed exits, and when the
close is observed while the buffer is empty after a flush it also
exits; but when the mailbox closes while one batch is buffered, the
nonblocking receive, which lacks the ok check, reads zero-value
requests from the closed channel forever: the run hangs, performing no
flush and decrementing no latch. -/
theorem C8_close_in_hot_receive_never_flushes :
    (runInserterRoutine (Except.ok strA) (some 2) ctxOk [Poll.recv oneReq]).outcome
      = Outcome.hung ∧
    flushEvents
      (runInserterRoutine (Except.ok strA) (some 2) ctxOk [Poll.recv oneReq]).events
      = [] ∧
    doneLatches
      (runInserterRoutine (Except.ok strA) (some 2) ctxOk [Poll.recv oneReq]).events
      = [] ∧
    (runInserterRoutine (Except.ok strA) (some 2) ctxOk ([] : List (Poll Int))).outcome
      = Outcome.exited ∧
    (runInserterRoutine (Except.ok strA) (some 2) ctxOk
        [Poll.recv oneReq, Poll.empty]).outcome = Outcome.exited ∧
    doneLatches
      (runInserterRoutine (Except.ok strA) (some 2) ctxOk
        [Poll.recv oneReq, Poll.empty]).events = [some 1] := by decide

/-- C10: a dequeued request whose metric maps to an empty batch list
is parked: its task is appended while the buffered batch list stays
empty, so hasPendingReqs stays false, the writer performs no flush,
decrements no latch and delivers no error; once a later request for
the metric adds a batch, the following flush completes both. -/
theorem C10_empty_batch_list_request_is_parked
    (r0 : insertDataRequest Int) (h : r0.data = []) :
    (handleReq ctxOk ⟨emptyPendingBuffer Int, 0⟩ r0).1.pending.needsResponse =
        [⟨r0.finished, r0.errChan⟩] ∧
    (handleReq ctxOk ⟨emptyPendingBuffer Int, 0⟩ r0).1.pending.batch.sampleInfos = [] ∧
    (handleReq ctxOk ⟨emptyPendingBuffer Int, 0⟩ r0).2 = [] ∧
    (handleReq ctxOk ⟨emptyPendingBuffer Int, 0⟩ r0).1.pending.hasPendingReqs = false ∧
    doneLatches (runLoop ctxOk [Poll.recv r0] ⟨emptyPendingBuffer Int, 0⟩).events = [] ∧
    flushEvents (runLoop ctxOk [Poll.recv r0] ⟨emptyPendingBuffer Int, 0⟩).events = [] ∧
    errSends (runLoop ctxOk [Poll.recv r0] ⟨emptyPendingBuffer Int, 0⟩).events = [] ∧
    (runLoop ctxOk [Poll.recv r0]
        ⟨emptyPendingBuffer Int, 0⟩).finalPending.needsResponse =
      [⟨r0.finished, r0.errChan⟩] ∧
    doneLatches (runLoop ctxOk [Poll.recv r0, Poll.recv oneReq, Poll.empty]
        ⟨emptyPendingBuffer Int, 0⟩).events = [r0.finished, some 1] := by
  obtain ⟨m, d, f, ec⟩ := r0
  simp only at h
  subst h
  refine ⟨?_, ?_, ?_, ?_, ?_, ?_, ?_, ?_, ?_⟩ <;>
    simp [runLoop, handleReq, fillKnowSeriesIds, pendingBuffer.addReq,
      pendingBuffer.hasPendingReqs, emptyPendingBuffer, NewSampleInfoIterator,
      ctxOk, flushSize, flushPending, taskEvents, doneLatches, flushEvents,
      errSends, oneReq, oneBatch, recvs]

/-- Witness for C10: the parked behavior at the concrete empty-data
request emptyDataReq. -/
theorem C10_witness :
    (handleReq ctxOk ⟨emptyPendingBuffer Int, 0⟩ emptyDataReq).1.pending.hasPendingReqs
      = false ∧
    doneLatches (runLoop ctxOk [Poll.recv emptyDataReq]
      ⟨emptyPendingBuffer Int, 0⟩).events = [] ∧
    doneLatches (runLoop ctxOk [Poll.recv emptyDataReq, Poll.recv oneReq, Poll.empty]
      ⟨emptyPendingBuffer Int, 0⟩).events = [some 3, some 1] := by
  have h := C10_empty_batch_list_request_is_parked emptyDataReq rfl
  exact ⟨h.2.2.2.1, h.2.2.2.2.1, h.2.2.2.2.2.2.2.2⟩

/-- C4: setSeriesIds sorts the unresolved remainder by label
comparison and groups consecutive batches with equal labels into
clusters; numSQLFunctionCalls equals the number of clusters (zero when
nothing was missing), the clusters partition the unresolved remainder,
distinct clusters carry distinct labels while every member of a
cluster carries its head labels, all members of one cluster are
assigned the id returned by that single stored-routine call, and hence
any two batches that were unresolved on entry and have equal canonical
labels end up with equal series ids. -/
theorem C4_one_call_per_cluster_equal_labels_equal_ids {Val : Type}
    (resp : Nat → SeriesID) (cache : SeriesCache)
    (infos : List (samplesInfo Val)) :
    (setSeriesIds resp cache infos).2.2 =
      (if (fillKnowSeriesIds cache infos).2 = 0 then 0
       else (clustersOf cache infos).length) ∧
    ((clustersOf cache infos).flatten).Perm
      (missingSeries (fillKnowSeriesIds cache infos).1) ∧
    ((clustersOf cache infos).map headLabels).Nodup ∧
    (∀ c ∈ clustersOf cache infos, ∀ x ∈ c, x.2 = headLabels c) ∧
    ((fillKnowSeriesIds cache infos).2 ≠ 0 →
      ∀ c ∈ clustersOf cache infos, ∀ x ∈ c, ∀ y ∈ c,
        finalSeriesId resp cache infos x.1 = finalSeriesId resp cache infos y.1 ∧
          (finalSeriesId resp cache infos x.1).isSome) ∧
    (∀ (i j : Nat) (si sj : samplesInfo Val) (l : Labels),
      infos[i]? = some si → infos[j]? = some sj →
      si.seriesID < 0 → sj.seriesID < 0 →
      si.labels = some l → sj.labels = some l →
      finalSeriesId resp cache infos i = finalSeriesId resp cache infos j) := by
  have hperm : ((missingSeries (fillKnowSeriesIds cache infos).1).mergeSort
      labelsLe).Perm (missingSeries (fillKnowSeriesIds cache infos).1) :=
    List.mergeSort_perm _ _
  have hsorted :=
    pairwise_leP_mergeSort (missingSeries (fillKnowSeriesIds cache infos).1)
  refine ⟨?_, ?_, ?_, ?_, ?_, ?_⟩
  · by_cases hcz : (fillKnowSeriesIds cache infos).2 = 0
    · simp [setSeriesIds, hcz]
    · simp [setSeriesIds, clustersOf, hcz]
  · rw [clustersOf, flatten_groupConsecutive]
    exact hperm
  · exact List.pairwise_map.mpr (heads_pairwise_ne _ hsorted)
  · intro c hc x hx
    exact labels_const_groupConsecutive _ c hc x hx
  · intro hcz c hc x hx y hy
    obtain ⟨xi, xl⟩ := x
    obtain ⟨yi, yl⟩ := y
    have hxll : xl = headLabels c :=
      labels_const_groupConsecutive _ c hc _ hx
    have hyll : yl = headLabels c :=
      labels_const_groupConsecutive _ c hc _ hy
    have hxM : (xi, xl) ∈ missingSeries (fillKnowSeriesIds cache infos).1 :=
      hperm.subset (mem_of_mem_groupConsecutive hc hx)
    have hyM : (yi, yl) ∈ missingSeries (fillKnowSeriesIds cache infos).1 :=
      hperm.subset (mem_of_mem_groupConsecutive hc hy)
    exact final_eq_of_mem_missing resp cache infos hcz
      (l := headLabels c) (hxll ▸ hxM) (hyll ▸ hyM)
  · intro i j si sj l hgi hgj hsi hsj hli hlj
    have hfi : (fillKnowSeriesIds cache infos).1[i]? = some (fillOne cache si) := by
      rw [fillKnow_eq_map, List.getElem?_map, hgi]
      rfl
    have hfj : (fillKnowSeriesIds cache infos).1[j]? = some (fillOne cache sj) := by
      rw [fillKnow_eq_map, List.getElem?_map, hgj]
      rfl
    have hnlt : ¬(-1 < si.seriesID) := by omega
    have hnltj : ¬(-1 < sj.seriesID) := by omega
    cases hc : cacheLookup cache l with
    | some id =>
      have hone : fillOne cache si = { si with seriesID := id } := by
        simp [fillOne, hnlt, hli, hc]
      have honej : fillOne cache sj = { sj with seriesID := id } := by
        simp [fillOne, hnltj, hlj, hc]
      by_cases hcz : (fillKnowSeriesIds cache infos).2 = 0
      · have hset : (setSeriesIds resp cache infos).1 =
            (fillKnowSeriesIds cache infos).1 := by
          simp [setSeriesIds, hcz]
        simp only [finalSeriesId, hset, hfi, hfj, hone, honej]
        simp
      · by_cases hid : id < 0
        · have hiM : (i, l) ∈ missingSeries (fillKnowSeriesIds cache infos).1 := by
            rw [mem_missingSeries_iff]
            exact ⟨fillOne cache si, hfi, by rw [hone]; exact hid,
              by rw [hone]; simp [hli]⟩
          have hjM : (j, l) ∈ missingSeries (fillKnowSeriesIds cache infos).1 := by
            rw [mem_missingSeries_iff]
            exact ⟨fillOne cache sj, hfj, by rw [honej]; exact hid,
              by rw [honej]; simp [hlj]⟩
          exact (final_eq_of_mem_missing resp cache infos hcz hiM hjM).1
        · have hlooki : (assignClusters resp 0 (clustersOf cache infos)).lookup i
              = none :=
            lookup_eq_none_of_not_mem (not_mem_assign_keys resp cache infos
              (fun si0 hg0 => by rw [hfi] at hg0; injection hg0 with he; rw [← he, hone]; exact hid))
          have hlookj : (assignClusters resp 0 (clustersOf cache infos)).lookup j
              = none :=
            lookup_eq_none_of_not_mem (not_mem_assign_keys resp cache infos
              (fun sj0 hg0 => by rw [hfj] at hg0; injection hg0 with he; rw [← he, honej]; exact hid))
          rw [finalSeriesId_eq resp cache infos hcz i,
            finalSeriesId_eq resp cache infos hcz j, hfi, hfj]
          simp [hlooki, hlookj, hone, honej]
    | none =>
      have hcz : (fillKnowSeriesIds cache infos).2 ≠ 0 := by
        intro h0
        obtain ⟨l2, id2, hl2, hc2⟩ := fillKnow_count_zero cache infos h0 si
          (mem_of_getElem?_some hgi) hsi
        rw [hli] at hl2
        injection hl2 with hl2e
        rw [← hl2e] at hc2
        rw [hc] at hc2
        exact Option.noConfusion hc2
      have hone : fillOne cache si = si := by
        simp [fillOne, hnlt, hli, hc]
      have honej : fillOne cache sj = sj := by
        simp [fillOne, hnltj, hlj, hc]
      have hiM : (i, l) ∈ missingSeries (fillKnowSeriesIds cache infos).1 := by
        rw [mem_missingSeries_iff]
        exact ⟨fillOne cache si, hfi, by rw [hone]; exact hsi,
          by rw [hone]; simp [hli]⟩
      have hjM : (j, l) ∈ missingSeries (fillKnowSeriesIds cache infos).1 := by
        rw [mem_missingSeries_iff]
        exact ⟨fillOne cache sj, hfj, by rw [honej]; exact hsj,
          by rw [honej]; simp [hlj]⟩
      exact (final_eq_of_mem_missing resp cache infos hcz hiM hjM).1

/-- Witness for C4 at a concrete flush: three unresolved batches, the
first and third with equal labels, resolve through two clusters to
equal ids for the equal-labeled pair. -/
theorem C4_witness :
    finalSeriesId (fun k => (100 : Int) + k) [] [unresolvedA, unresolvedB, unresolvedA] 0 =
      finalSeriesId (fun k => (100 : Int) + k) [] [unresolvedA, unresolvedB, unresolvedA] 2 ∧
    (setSeriesIds (fun k => (100 : Int) + k) [] [unresolvedA, unresolvedB, unresolvedA]).2.2 =
      (if (fillKnowSeriesIds [] [unresolvedA, unresolvedB, unresolvedA]).2 = 0 then 0
       else (clustersOf [] [unresolvedA, unresolvedB, unresolvedA]).length) := by
  have h := C4_one_call_per_cluster_equal_labels_equal_ids
    (fun k => (100 : Int) + k) [] [unresolvedA, unresolvedB, unresolvedA]
  exact ⟨h.2.2.2.2.2 0 2 unresolvedA unresolvedA labA rfl rfl (by decide) (by decide)
    rfl rfl, h.1⟩

end PgModel
